import Mathlib

/-!
Verification of the invogen event-sourced billing core.

This file gives a shallow embedding of the core data model and algorithms of
the invogen repository (src/historical.rs, src/calendar.rs, src/billing.rs,
src/clients.rs) and proves properties about it.

Modelling conventions:
- `chrono::NaiveDate` is modelled as `Date`, a number of days since
  1970-01-01 (proleptic Gregorian calendar, unbounded; chrono's MIN/MAX
  year bounds are not modelled).  Calendar component extraction
  (year/month) uses the standard civil-from-days algorithm; `month()`
  returns `Nat` mirroring chrono's `u32`.
- `rust_decimal::Decimal` is modelled as `ℚ` (exact decimal arithmetic;
  rust_decimal's 96-bit mantissa overflow is not modelled).  The rounding
  strategy `MidpointNearestEven` at 2 decimal places is modelled exactly
  by `round2`.
- `BTreeMap` is modelled as a strictly-sorted association list with
  insert/lookup/range-max operations (`mapInsert`, `mapLookup`, `mapAsOf`),
  `BTreeSet` as a sorted duplicate-free list.
- Rust `u32` subtraction (which wraps in release builds) is modelled as
  wrapping arithmetic mod 2^32.
- Fallible operations return `Option`/`Except`/an error component; a Rust
  `panic!`/`expect` is modelled by `Option.none`.
- `Period.from` is a Lean keyword, so the field is named `from'`.
-/

namespace Invogen

/-- Model of chrono::NaiveDate: days since 1970-01-01 in the proleptic
Gregorian calendar. -/
structure Date where
  days : Int
deriving DecidableEq, Repr

theorem Date.days_injective : Function.Injective Date.days := by
  intro a b h
  cases a
  cases b
  simpa using h

instance : LinearOrder Date := LinearOrder.lift' Date.days Date.days_injective

theorem Date.le_def (a b : Date) : a ≤ b ↔ a.days ≤ b.days := Iff.rfl

theorem Date.lt_def (a b : Date) : a < b ↔ a.days < b.days := Iff.rfl

/-- chrono `Weekday::num_days_from_monday`: Monday = 0, ..., Sunday = 6.
1970-01-01 was a Thursday (3). -/
def Date.weekdayNum (d : Date) : Int := (d.days + 3) % 7

/-- chrono's test `d.weekday().num_days_from_monday() < 5` from
`Period::working_days` (src/billing.rs line 30): Monday–Friday. -/
def Date.isWorkingDay (d : Date) : Bool := decide (d.weekdayNum < 5)

/-- Day count of 1 March, year 0 based epoch shifted to 1970-01-01: the
standard civil-calendar `days_from_civil` algorithm. -/
def daysFromCivil (y m d : Int) : Int :=
  let y' := y - (if m ≤ 2 then 1 else 0)
  let era := y' / 400
  let yoe := y' % 400
  let mp := (m + 9) % 12
  let doy := (153 * mp + 2) / 5 + d - 1
  let doe := yoe * 365 + yoe / 4 - yoe / 100 + doy
  era * 146097 + doe - 719468

/-- Convenience constructor from a year/month/day triple. -/
def Date.ymd (y m d : Int) : Date := ⟨daysFromCivil y m d⟩

/-- Day-of-era within the 400-year cycle (civil-from-days algorithm). -/
def Date.doe (dt : Date) : Int := (dt.days + 719468) % 146097

/-- Era (400-year cycle index) of the date. -/
def Date.era (dt : Date) : Int := (dt.days + 719468) / 146097

/-- Year-of-era within the 400-year cycle. -/
def Date.yoe (dt : Date) : Int :=
  (dt.doe - dt.doe / 1460 + dt.doe / 36524 - dt.doe / 146096) / 365

/-- Day-of-year counted from 1 March. -/
def Date.doy (dt : Date) : Int :=
  dt.doe - (365 * dt.yoe + dt.yoe / 4 - dt.yoe / 100)

/-- Month index counted from March (0 = March, ..., 11 = February). -/
def Date.mp (dt : Date) : Int := (5 * dt.doy + 2) / 153

/-- Civil month as an integer (January = 1, ..., December = 12). -/
def Date.monthZ (dt : Date) : Int := dt.mp + (if dt.mp < 10 then 3 else -9)

/-- chrono `Datelike::month` returns `u32`; modelled as `Nat`. -/
def Date.month (dt : Date) : Nat := dt.monthZ.toNat

/-- chrono `Datelike::year` returns `i32`; modelled as `Int`. -/
def Date.year (dt : Date) : Int :=
  dt.yoe + dt.era * 400 + (if dt.monthZ ≤ 2 then 1 else 0)

/-- Models `DateBoundaries::start_of_month` (src/calendar.rs): `with_day(1)`,
the first day of the date's month. -/
def Date.start_of_month (dt : Date) : Date := ⟨daysFromCivil dt.year dt.month 1⟩

/-- Models `DateBoundaries::end_of_month` (src/calendar.rs): add one month, take
day 1, subtract one day — the last day of the date's month. -/
def Date.end_of_month (dt : Date) : Date :=
  if dt.month = 12 then ⟨daysFromCivil (dt.year + 1) 1 1 - 1⟩
  else ⟨daysFromCivil dt.year (dt.month + 1) 1 - 1⟩

/-- Models `DateBoundaries::start_of_week` (src/calendar.rs): subtract
`num_days_from_monday` days, giving the Monday of the date's ISO week. -/
def Date.start_of_week (dt : Date) : Date := ⟨dt.days - dt.weekdayNum⟩

/-- Models `DateBoundaries::end_of_week` (src/calendar.rs): add
`6 - num_days_from_monday` days, giving the Sunday of the date's ISO week. -/
def Date.end_of_week (dt : Date) : Date := ⟨dt.days + (6 - dt.weekdayNum)⟩

/-- The inclusive list of days from `a` to `b`, modelling
`a.iter_days().take_while(|d| d <= b)`. -/
def dayList (a b : Date) : List Date :=
  (List.range (b.days - a.days + 1).toNat).map
    (fun (i : Nat) => ⟨a.days + (i : Int)⟩)

/-- Sorted association list insert, modelling `BTreeMap::insert`
(overwrites an existing entry with the same key). -/
def mapInsert {κ α : Type} [LinearOrder κ] (k : κ) (v : α) :
    List (κ × α) → List (κ × α)
  | [] => [(k, v)]
  | (k', v') :: t =>
    if k < k' then (k, v) :: (k', v') :: t
    else if k = k' then (k, v) :: t
    else (k', v') :: mapInsert k v t

/-- Association list lookup, modelling `BTreeMap::get`. -/
def mapLookup {κ α : Type} [DecidableEq κ] (k : κ) :
    List (κ × α) → Option α
  | [] => none
  | (k', v') :: t => if k = k' then some v' else mapLookup k t

/-- In-place update of the entry at key `k`, modelling
`BTreeMap::get_mut` followed by a field assignment. -/
def mapModify {κ α : Type} [DecidableEq κ] (k : κ) (f : α → α)
    (l : List (κ × α)) : List (κ × α) :=
  l.map (fun p => if p.1 = k then (p.1, f p.2) else p)

/-- Greatest entry with key ≤ `d`, modelling
`BTreeMap::range(..=date).next_back()` (src/historical.rs line 20). -/
def mapAsOf {κ α : Type} [LinearOrder κ] (d : κ) (l : List (κ × α)) :
    Option α :=
  ((l.filter (fun p => decide (p.1 ≤ d))).getLast?).map Prod.snd

/-- Well-formedness of the association-list model of a `BTreeMap`:
keys strictly increasing.  Holds for every map built from `[]` by
`mapInsert`. -/
def MapWf {κ α : Type} [LinearOrder κ] (l : List (κ × α)) : Prop :=
  l.Pairwise (fun a b => a.1 < b.1)

/-- The `Historical<T>` store (src/historical.rs): a `BTreeMap` from
effective `NaiveDate` to a value. -/
structure Historical (α : Type) where
  history : List (Date × α)

/-- Models `Historical::new` (src/historical.rs line 12). -/
def Historical.new {α : Type} : Historical α := ⟨[]⟩

/-- Models `Historical::as_of` (src/historical.rs lines 18–23). -/
def Historical.as_of {α : Type} (h : Historical α) (date : Date) : Option α :=
  mapAsOf date h.history

/-- Models `Historical::insert` (src/historical.rs lines 29–31). -/
def Historical.insert {α : Type} (h : Historical α) (effective : Date)
    (item : α) : Historical α :=
  ⟨mapInsert effective item h.history⟩

/-- Keys (effective dates) present in the store. -/
def Historical.keys {α : Type} (h : Historical α) : List Date :=
  h.history.map Prod.fst

/-- Well-formedness of a `Historical` store (its `BTreeMap` invariant). -/
def Historical.Wf {α : Type} (h : Historical α) : Prop := MapWf h.history

/-- Billing unit (src/billing.rs `enum Unit`). -/
inductive Unit where
  | Month
  | Week
  | Day
  | Hour
deriving DecidableEq, Repr

/-- Currency (src/billing.rs `enum Currency`). -/
inductive Currency where
  | Cad
  | Usd
  | Eur
deriving DecidableEq, Repr

/-- Round a rational to the nearest integer, ties to the even integer:
the integer core of rust_decimal's `RoundingStrategy::MidpointNearestEven`. -/
def rndHalfEven (q : ℚ) : Int :=
  if q - ⌊q⌋ < 1 / 2 then ⌊q⌋
  else if 1 / 2 < q - ⌊q⌋ then ⌊q⌋ + 1
  else if Even ⌊q⌋ then ⌊q⌋ else ⌊q⌋ + 1

/-- Models `round_dp_with_strategy(2, RoundingStrategy::MidpointNearestEven)`
(src/billing.rs lines 177–180): round to 2 decimal places, half to even. -/
def round2 (q : ℚ) : ℚ := (rndHalfEven (q * 100) : ℚ) / 100

/-- Models `Money(Currency, Decimal)` (src/billing.rs line 155); the unnamed
tuple fields are called `currency` and `amount` here. -/
structure Money where
  currency : Currency
  amount : ℚ
deriving DecidableEq, Repr

/-- Models `impl Add<Money> for Money` (src/billing.rs lines 163–169): adds the
amounts, keeping the left operand's currency. -/
def Money.add (a b : Money) : Money := ⟨a.currency, a.amount + b.amount⟩

/-- Models `impl Mul<Decimal> for Money` (src/billing.rs lines 171–183): the
product of the amounts rounded to 2 decimal places, half to even. -/
def Money.mul (m : Money) (q : ℚ) : Money := ⟨m.currency, round2 (m.amount * q)⟩

/-- Models `TaxRate(String, Decimal)` (src/billing.rs line 217): name and rate
stored as a fraction. -/
structure TaxRate where
  name : String
  rate : ℚ
deriving DecidableEq, Repr

/-- Models `Rate` (src/billing.rs lines 204–208): a price per billing unit. -/
structure Rate where
  amount : Money
  per : Unit
deriving DecidableEq, Repr

/-- Models `Period` (src/billing.rs lines 14–18). `from` is a Lean keyword, so
the field is named `from'`. -/
structure Period where
  from' : Date
  until' : Date
deriving DecidableEq, Repr

/-- Models `Period::working_days` (src/billing.rs lines 25–33): the number of
Monday–Friday days in the inclusive range, as a `Decimal`. -/
def Period.working_days (p : Period) : ℚ :=
  (((dayList p.from' p.until').filter Date.isWorkingDay).length : ℚ)

/-- Models `Period::count_distinct` (src/billing.rs lines 35–37):
`Decimal::from(f(self.until) - f(self.from) + 1)` where `f` returns `u32`;
the subtraction and increment wrap mod 2^32 as Rust release-mode `u32`
arithmetic does. -/
def Period.count_distinct (p : Period) (f : Date → Nat) : ℚ :=
  ((((f p.until' + 2 ^ 32 - f p.from') % 2 ^ 32 + 1) % 2 ^ 32 : Nat) : ℚ)

/-- The count in `Period::num_weeks` (src/billing.rs lines 63–68):
`self.from.iter_weeks().take_while(|d| d <= &self.until).count()`, i.e.
the number of 7-day steps from `from` that stay within the range. -/
def Period.weeksTouched (p : Period) : Nat :=
  ((List.range (p.until'.days - p.from'.days + 1).toNat).filter
    (fun i => i % 7 == 0)).length

/-- Models `Period::num_months` (src/billing.rs lines 48–56). Note the code's
`full_period` runs from the start of `from`'s month to the end of
`until`'s month. -/
def Period.num_months (p : Period) : ℚ :=
  let full_period : Period := ⟨p.from'.start_of_month, p.until'.end_of_month⟩
  (((p.until'.year - p.from'.year) * 12 : Int) : ℚ)
    + p.working_days / full_period.working_days * p.count_distinct Date.month

/-- Models `Period::num_weeks` (src/billing.rs lines 58–70). Note the code's
`full_period` runs from the Monday of `from`'s week to the Sunday of
`until`'s week. -/
def Period.num_weeks (p : Period) : ℚ :=
  let full_period : Period := ⟨p.from'.start_of_week, p.until'.end_of_week⟩
  (p.weeksTouched : ℚ) * p.working_days / full_period.working_days

/-- Models `Period::num_units` (src/billing.rs lines 39–46). -/
def Period.num_units (p : Period) (u : Unit) : ℚ :=
  match u with
  | Unit.Month => p.num_months
  | Unit.Week => p.num_weeks
  | Unit.Day => p.working_days
  | Unit.Hour => 0

/-- Models `InvoiceItem` (src/billing.rs lines 250–256). -/
structure InvoiceItem where
  name : String
  rate : Rate
  period : Period
  quantity : ℚ
  amount : Money
deriving DecidableEq, Repr

/-- Models `InvoiceTotal` (src/billing.rs lines 231–236). -/
structure InvoiceTotal where
  subtotal : Money
  taxes : List (TaxRate × Money)
  total : Money
deriving DecidableEq, Repr

/-- Models `Invoice` (src/billing.rs lines 298–305). -/
structure Invoice where
  date : Date
  number : Nat
  items : List InvoiceItem
  tax_rates : List TaxRate
  paid : Option Date
deriving DecidableEq, Repr

/-- Models `Invoice::calculate` (src/billing.rs lines 324–343).  The source
computes the subtotal with `reduce` and `expect`s at least one item
(a panic on an empty invoice, modelled by `none`); taxes are one entry
per configured rate at `subtotal * rate`; the total folds the tax
amounts onto the subtotal. -/
def Invoice.calculate (inv : Invoice) : Option InvoiceTotal :=
  match inv.items.map InvoiceItem.amount with
  | [] => none
  | a :: rest =>
    let subtotal := rest.foldl Money.add a
    let taxes := inv.tax_rates.map (fun tr => (tr, subtotal.mul tr.rate))
    let total := taxes.foldl (fun acc p => acc.add p.2) subtotal
    some ⟨subtotal, taxes, total⟩

/-- Modelled from the spec (§4.2 Month): the `full_period` the spec
describes — the calendar month containing `from`, first day to last
day.  Used to compare the spec's formula with the code's. -/
def specFullMonth (p : Period) : Period :=
  ⟨p.from'.start_of_month, p.from'.end_of_month⟩

/-- Modelled from the spec (§4.2 Month): 12 × (year(until) − year(from)) +
(working days in range / working days in the calendar month containing
`from`) × (month(until) − month(from) + 1). -/
def spec_num_months (p : Period) : ℚ :=
  12 * ((p.until'.year - p.from'.year : Int) : ℚ)
    + p.working_days / (specFullMonth p).working_days
      * ((p.until'.month : ℚ) - (p.from'.month : ℚ) + 1)

/-- Modelled from the spec (§4.2 Week): the number of distinct ISO week
buckets (Monday-start weeks) touched by the inclusive range. -/
def spec_weekBuckets (p : Period) : Nat :=
  (((dayList p.from' p.until').map Date.start_of_week).dedup).length

/-- Modelled from the spec (§4.2 Week): (distinct week buckets touched) ×
(working days in range) / (working days in the single ISO week containing
`from`). -/
def spec_num_weeks (p : Period) : ℚ :=
  (spec_weekBuckets p : ℚ) * p.working_days
    / (Period.mk p.from'.start_of_week p.from'.end_of_week).working_days

/-- The invoice type used by src/clients.rs.  In this snapshot of the
repository, clients.rs accesses `invoice.number`, `invoice.service`,
`invoice.period` and `invoice.paid`, and builds invoices with
`Invoice::new(number, period, service, rate, taxes)` — a different
revision of the `Invoice` struct than the one in src/billing.rs, so it
is modelled as a separate structure with exactly those fields. -/
structure ClientInvoice where
  date : Date
  number : Nat
  period : Period
  service : String
  rate : Rate
  taxes : List TaxRate
  paid : Option Date
deriving DecidableEq, Repr

/-- Models `ClientError` (src/error.rs).  The `Io`, `Format` and `Input`
variants wrap external error payloads that are not modelled. -/
inductive ClientError where
  | Io
  | Format
  | NotFound (key : String)
  | NoRate (key : String) (effective : Date)
  | InvoiceOutOfSequence (current : Nat) (found : Nat)
  | PaidOutOfSequence (client : String) (number : Nat)
  | AlreadyPaid (client : String) (number : Nat)
  | Input
deriving DecidableEq, Repr

/-- Models `enum Update` (src/clients.rs lines 107–115). -/
inductive Update where
  | Address (addr : String)
  | Name (name : String)
  | Rate (effective : Date) (rate : Invogen.Rate)
  | Invoiced (invoice : ClientInvoice)
  | Paid (num : Nat) (date : Date)
  | Taxes (effective : Date) (taxes : List TaxRate)
deriving DecidableEq, Repr

/-- Models `enum Change` (src/clients.rs lines 117–122). -/
inductive Change where
  | Added (name : String) (address : String)
  | Updated (update : Update)
  | Removed
deriving DecidableEq, Repr

/-- Models `struct Event(String, DateTime<Utc>, Change)` (src/clients.rs line
125); the timestamp is modelled as an integer and is never inspected by
the fold. -/
structure Event where
  key : String
  timestamp : Int
  change : Change
deriving DecidableEq, Repr

/-- Sorted duplicate-free insert, modelling `BTreeSet::insert`. -/
def setInsert (s : String) : List String → List String
  | [] => [s]
  | x :: t =>
    if s < x then s :: x :: t
    else if s = x then x :: t
    else x :: setInsert s t

/-- Models `struct Client` (src/clients.rs lines 15–25). -/
structure Client where
  key : String
  name : String
  address : String
  rates : List (Date × Rate)
  invoices : List (Nat × ClientInvoice)
  taxes : List (Date × List TaxRate)
  past_services : List String
deriving DecidableEq, Repr

/-- Models `Client::new` (src/clients.rs lines 28–38). -/
def Client.new (key name address : String) : Client :=
  ⟨key, name, address, [], [], [], []⟩

/-- Models `Client::next_invoice_num` (src/clients.rs lines 84–86): the number
of stored invoices plus one. -/
def Client.next_invoice_num (c : Client) : Nat := c.invoices.length + 1

/-- Models `Client::update` (src/clients.rs lines 40–78).  The Rust method
mutates `&mut self` and returns `Result<(), ClientError>`; it is
modelled as a pure function returning the new client state together
with the optional error.  On every error path the source returns before
mutating anything, so the state component is the unchanged client. -/
def Client.update (c : Client) (u : Update) : Client × Option ClientError :=
  match u with
  | Update.Address addr => ({ c with address := addr }, none)
  | Update.Name name => ({ c with name := name }, none)
  | Update.Rate effective rate =>
    ({ c with rates := mapInsert effective rate c.rates }, none)
  | Update.Invoiced invoice =>
    if invoice.number ≠ c.next_invoice_num then
      (c, some (ClientError.InvoiceOutOfSequence c.invoices.length
        invoice.number))
    else
      ({ c with
          invoices := mapInsert invoice.number invoice c.invoices,
          past_services := setInsert invoice.service c.past_services },
       none)
  | Update.Paid num when =>
    match mapLookup num c.invoices with
    | some invoice =>
      if invoice.paid.isSome then
        (c, some (ClientError.AlreadyPaid c.key num))
      else
        ({ c with
            invoices := mapModify num
              (fun i => { i with paid := some when }) c.invoices },
         none)
    | none => (c, some (ClientError.PaidOutOfSequence c.key num))
  | Update.Taxes effective taxes =>
    ({ c with taxes := mapInsert effective taxes c.taxes }, none)

/-- Models `type Clients = BTreeMap<String, Client>` (src/clients.rs line 185),
modelled as a partial map. -/
abbrev Clients := String → Option Client

/-- Models `BTreeMap::insert` on the clients registry. -/
def clientsInsert (cs : Clients) (k : String) (c : Client) : Clients :=
  fun k' => if k' = k then some c else cs k'

/-- Models `BTreeMap::remove` on the clients registry. -/
def clientsRemove (cs : Clients) (k : String) : Clients :=
  fun k' => if k' = k then none else cs k'

/-- Models `apply_event` (src/clients.rs lines 187–200).  `Added` inserts a
fresh client (overwriting), `Updated` applies the update to the client
at the key if present — discarding the `Result` returned by
`Client::update`, as the source's `.map(|client| client.update(update))`
does — and `Removed` deletes the key. -/
def apply_event (cs : Clients) (e : Event) : Clients :=
  match e.change with
  | Change.Added name address =>
    clientsInsert cs e.key (Client.new e.key name address)
  | Change.Updated u =>
    match cs e.key with
    | some c => clientsInsert cs e.key (c.update u).1
    | none => cs
  | Change.Removed => clientsRemove cs e.key

/-- Models `from_events` (src/clients.rs lines 202–208): folds the events over
the empty registry; the body never produces an error. -/
def from_events (events : List Event) : Except ClientError Clients :=
  Except.ok (events.foldl apply_event (fun _ => none))

/-- Invariant on a client's invoice map: the keys are exactly
1, 2, ..., n in order (no gaps, no reuse) and every stored invoice's
`number` field equals its key. -/
def ClientWf (c : Client) : Prop :=
  c.invoices.map Prod.fst = List.range' 1 c.invoices.length
    ∧ ∀ p ∈ c.invoices, p.2.number = p.1

theorem Date.doe_bounds (d : Date) : 0 ≤ d.doe ∧ d.doe ≤ 146096 := by
  unfold Date.doe
  omega

theorem Date.yoe_nonneg (d : Date) : 0 ≤ d.yoe := by
  have h := d.doe_bounds
  unfold Date.yoe
  omega

theorem Date.doy_le (d : Date) : d.doy ≤ d.doe := by
  have h := d.yoe_nonneg
  unfold Date.doy
  omega

theorem Date.mp_le (d : Date) : d.mp ≤ 4774 := by
  have h1 := d.doe_bounds
  have h2 := d.doy_le
  unfold Date.mp
  omega

theorem Date.month_le (d : Date) : d.month ≤ 4777 := by
  have h := d.mp_le
  unfold Date.month Date.monthZ
  split
  all_goals omega

theorem count_distinct_month (p : Period) (h : p.from'.month ≤ p.until'.month) :
    p.count_distinct Date.month
      = (p.until'.month : ℚ) - (p.from'.month : ℚ) + 1 := by
  have h1 := p.until'.month_le
  unfold Period.count_distinct
  have h2 : ((p.until'.month + 2 ^ 32 - p.from'.month) % 2 ^ 32 + 1) % 2 ^ 32
      = p.until'.month - p.from'.month + 1 := by omega
  rw [h2, Nat.cast_add, Nat.cast_sub h]
  norm_num

/-- C2: the Month-unit quantity.  The claim's formula does not hold as
stated (see the counterexample): in the code, `full_period` runs from the
first day of `from`'s month to the last day of `until`'s month, not over
the single calendar month containing `from`.  With that `full_period`,
and when `month(from) ≤ month(until)` so that the `u32` subtraction
`month(until) - month(from)` does not wrap, the quantity equals
12 × (year(until) − year(from)) + (working days in range / working days
in full_period) × (month(until) − month(from) + 1). -/
theorem c2_num_months (p : Period) (h1 : p.from' ≤ p.until')
    (h2 : p.from'.month ≤ p.until'.month) :
    p.num_units Unit.Month
      = 12 * ((p.until'.year - p.from'.year : Int) : ℚ)
        + p.working_days
          / (Period.mk p.from'.start_of_month p.until'.end_of_month).working_days
          * ((p.until'.month : ℚ) - (p.from'.month : ℚ) + 1) := by
  show p.num_months = _
  unfold Period.num_months
  rw [count_distinct_month p h2]
  push_cast
  ring

/-- C2 witness: a concrete two-month period. -/
theorem c2_num_months_witness :
    Period.num_units (Period.mk (Date.ymd 2023 1 1) (Date.ymd 2023 2 28))
        Unit.Month
      = 12 * (((Date.ymd 2023 2 28).year - (Date.ymd 2023 1 1).year : Int) : ℚ)
        + (Period.mk (Date.ymd 2023 1 1) (Date.ymd 2023 2 28)).working_days
          / (Period.mk (Date.ymd 2023 1 1).start_of_month
              (Date.ymd 2023 2 28).end_of_month).working_days
          * (((Date.ymd 2023 2 28).month : ℚ)
              - ((Date.ymd 2023 1 1).month : ℚ) + 1) :=
  c2_num_months (Period.mk (Date.ymd 2023 1 1) (Date.ymd 2023 2 28))
    (by decide) (by decide)

/-- C2 counterexample: for the period 2023-01-01 … 2023-02-28 (with
from ≤ until) the code computes 2 months, while the spec's formula —
with `full_period` the calendar month containing `from` — gives 42/11.
The spec's `full_period` description does not match the code. -/
theorem c2_counterexample :
    Date.ymd 2023 1 1 ≤ Date.ymd 2023 2 28
  ∧ Period.num_units (Period.mk (Date.ymd 2023 1 1) (Date.ymd 2023 2 28))
        Unit.Month
      ≠ spec_num_months (Period.mk (Date.ymd 2023 1 1) (Date.ymd 2023 2 28))
  ∧ Period.num_units (Period.mk (Date.ymd 2023 1 1) (Date.ymd 2023 2 28))
        Unit.Month = 2
  ∧ spec_num_months (Period.mk (Date.ymd 2023 1 1) (Date.ymd 2023 2 28))
      = 42 / 11 := by
  have hw1 : ((dayList (Date.ymd 2023 1 1) (Date.ymd 2023 2 28)).filter
      Date.isWorkingDay).length = 42 := by decide
  have hw2 : ((dayList (Date.ymd 2023 1 1).start_of_month
      (Date.ymd 2023 2 28).end_of_month).filter
      Date.isWorkingDay).length = 42 := by decide
  have hw3 : ((dayList (Date.ymd 2023 1 1).start_of_month
      (Date.ymd 2023 1 1).end_of_month).filter
      Date.isWorkingDay).length = 22 := by decide
  have hcd : ((Date.month (Date.ymd 2023 2 28) + 2 ^ 32
      - Date.month (Date.ymd 2023 1 1)) % 2 ^ 32 + 1) % 2 ^ 32 = 2 := by
    decide
  have hm1 : Date.month (Date.ymd 2023 2 28) = 2 := by decide
  have hm2 : Date.month (Date.ymd 2023 1 1) = 1 := by decide
  have hy1 : ((Date.ymd 2023 2 28).year - (Date.ymd 2023 1 1).year) * 12
      = 0 := by decide
  have hy2 : (Date.ymd 2023 2 28).year - (Date.ymd 2023 1 1).year = 0 := by
    decide
  have hcode : Period.num_units
      (Period.mk (Date.ymd 2023 1 1) (Date.ymd 2023 2 28)) Unit.Month = 2 := by
    show Period.num_months _ = 2
    unfold Period.num_months Period.working_days Period.count_distinct
    dsimp only
    rw [hw1, hw2, hcd, hy1]
    norm_num
  have hspec : spec_num_months
      (Period.mk (Date.ymd 2023 1 1) (Date.ymd 2023 2 28)) = 42 / 11 := by
    unfold spec_num_months specFullMonth Period.working_days
    dsimp only
    rw [hw1, hw3, hm1, hm2, hy2]
    norm_num
  refine ⟨by decide, ?_, hcode, hspec⟩
  rw [hcode, hspec]
  norm_num

theorem countMultiplesOfSeven (n : Nat) :
    ((List.range n).filter (fun i => i % 7 == 0)).length = (n + 6) / 7 := by
  induction n with
  | zero => simp
  | succ k ih =>
    rw [List.range_succ, List.filter_append, List.length_append, ih]
    by_cases hk : k % 7 = 0
    · have hb : (k % 7 == 0) = true := by simpa using hk
      simp only [List.filter_cons, List.filter_nil, hb, if_true,
        List.length_cons, List.length_nil]
      omega
    · have hb : (k % 7 == 0) = false := by simpa using hk
      simp only [List.filter_cons, List.filter_nil, hb, Bool.false_eq_true,
        if_false, List.length_nil]
      omega

/-- C3: the Week-unit quantity.  The claim's formula does not hold as
stated (see the counterexample): in the code, `full_period` runs from
the Monday of `from`'s week to the Sunday of `until`'s week (not the
single ISO week containing `from`), and the week count is the number of
7-day steps `from, from+7d, …` that stay inside the range (i.e.
⌈(days in range)/7⌉), which can differ from the number of distinct ISO
week buckets touched.  With those corrections the quantity equals
(week steps) × (working days in range) / (working days in full_period). -/
theorem c3_num_weeks (p : Period) (h : p.from' ≤ p.until') :
    p.num_units Unit.Week
      = ((((p.until'.days - p.from'.days).toNat + 7) / 7 : Nat) : ℚ)
        * p.working_days
        / (Period.mk p.from'.start_of_week p.until'.end_of_week).working_days := by
  show p.num_weeks = _
  unfold Period.num_weeks Period.weeksTouched
  rw [countMultiplesOfSeven]
  have hd : p.from'.days ≤ p.until'.days := h
  have h2 : ((p.until'.days - p.from'.days + 1).toNat + 6) / 7
      = ((p.until'.days - p.from'.days).toNat + 7) / 7 := by omega
  rw [h2]

/-- C3 witness: a concrete Sunday-to-Monday period. -/
theorem c3_num_weeks_witness :
    Period.num_units (Period.mk (Date.ymd 2023 11 12) (Date.ymd 2023 11 13))
        Unit.Week
      = (((((Date.ymd 2023 11 13).days - (Date.ymd 2023 11 12).days).toNat + 7)
            / 7 : Nat) : ℚ)
        * (Period.mk (Date.ymd 2023 11 12) (Date.ymd 2023 11 13)).working_days
        / (Period.mk (Date.ymd 2023 11 12).start_of_week
            (Date.ymd 2023 11 13).end_of_week).working_days :=
  c3_num_weeks (Period.mk (Date.ymd 2023 11 12) (Date.ymd 2023 11 13))
    (by decide)

/-- C3 counterexample: for the period Sunday 2023-11-12 … Monday
2023-11-13 (with from ≤ until) the code computes 1/10 of a week, while
the spec's formula — 2 distinct ISO week buckets touched, divided by the
working days of the single ISO week containing `from` — gives 2/5. -/
theorem c3_counterexample :
    Date.ymd 2023 11 12 ≤ Date.ymd 2023 11 13
  ∧ Period.num_units (Period.mk (Date.ymd 2023 11 12) (Date.ymd 2023 11 13))
        Unit.Week
      ≠ spec_num_weeks (Period.mk (Date.ymd 2023 11 12) (Date.ymd 2023 11 13))
  ∧ Period.num_units (Period.mk (Date.ymd 2023 11 12) (Date.ymd 2023 11 13))
        Unit.Week = 1 / 10
  ∧ spec_num_weeks (Period.mk (Date.ymd 2023 11 12) (Date.ymd 2023 11 13))
      = 2 / 5 := by
  have ht : ((List.range ((Date.ymd 2023 11 13).days
      - (Date.ymd 2023 11 12).days + 1).toNat).filter
      (fun i => i % 7 == 0)).length = 1 := by decide
  have hw1 : ((dayList (Date.ymd 2023 11 12) (Date.ymd 2023 11 13)).filter
      Date.isWorkingDay).length = 1 := by decide
  have hw2 : ((dayList (Date.ymd 2023 11 12).start_of_week
      (Date.ymd 2023 11 13).end_of_week).filter
      Date.isWorkingDay).length = 10 := by decide
  have hw3 : ((dayList (Date.ymd 2023 11 12).start_of_week
      (Date.ymd 2023 11 12).end_of_week).filter
      Date.isWorkingDay).length = 5 := by decide
  have hbk : (((dayList (Date.ymd 2023 11 12) (Date.ymd 2023 11 13)).map
      Date.start_of_week).dedup).length = 2 := by decide
  have hcode : Period.num_units
      (Period.mk (Date.ymd 2023 11 12) (Date.ymd 2023 11 13)) Unit.Week
        = 1 / 10 := by
    show Period.num_weeks _ = 1 / 10
    unfold Period.num_weeks Period.weeksTouched Period.working_days
    dsimp only
    rw [ht, hw1, hw2]
    norm_num
  have hspec : spec_num_weeks
      (Period.mk (Date.ymd 2023 11 12) (Date.ymd 2023 11 13)) = 2 / 5 := by
    unfold spec_num_weeks spec_weekBuckets Period.working_days
    dsimp only
    rw [hbk, hw1, hw3]
    norm_num
  refine ⟨by decide, ?_, hcode, hspec⟩
  rw [hcode, hspec]
  norm_num

theorem isWorkingDay_eq_not_weekend (d : Date) :
    d.isWorkingDay = decide (d.weekdayNum ≠ 5 ∧ d.weekdayNum ≠ 6) := by
  have hb : 0 ≤ d.weekdayNum ∧ d.weekdayNum < 7 := by
    unfold Date.weekdayNum
    omega
  unfold Date.isWorkingDay
  rw [decide_eq_decide]
  omega

theorem mem_dayList (a b : Date) (d : Date) :
    d ∈ dayList a b ↔ a.days ≤ d.days ∧ d.days ≤ b.days := by
  unfold dayList
  simp only [List.mem_map, List.mem_range]
  constructor
  · rintro ⟨i, hi, rfl⟩
    dsimp only
    omega
  · rintro ⟨h1, h2⟩
    refine ⟨(d.days - a.days).toNat, by omega, ?_⟩
    apply Date.days_injective
    dsimp only
    omega

/-- C4: the Day-unit quantity is the number of weekdays (Monday–Friday,
i.e. not Saturday and not Sunday) in the inclusive range, and a period
all of whose days are Saturdays or Sundays yields exactly 0 (the
computation is total — no panic). -/
theorem c4_day_unit (p : Period) (h : p.from' ≤ p.until') :
    p.num_units Unit.Day
      = (((dayList p.from' p.until').countP
          (fun d => decide (d.weekdayNum ≠ 5 ∧ d.weekdayNum ≠ 6))) : ℚ)
  ∧ ((∀ d : Date, p.from' ≤ d → d ≤ p.until' →
        d.weekdayNum = 5 ∨ d.weekdayNum = 6) →
      p.num_units Unit.Day = 0) := by
  constructor
  · show p.working_days = _
    unfold Period.working_days
    rw [List.countP_eq_length_filter]
    have heq : (dayList p.from' p.until').filter Date.isWorkingDay
        = (dayList p.from' p.until').filter
            (fun d => decide (d.weekdayNum ≠ 5 ∧ d.weekdayNum ≠ 6)) :=
      List.filter_congr (fun d _ => isWorkingDay_eq_not_weekend d)
    rw [heq]
  · intro hweekend
    show p.working_days = 0
    unfold Period.working_days
    have hnil : (dayList p.from' p.until').filter Date.isWorkingDay = [] := by
      rw [List.filter_eq_nil_iff]
      intro d hd
      rw [mem_dayList] at hd
      have := hweekend d hd.1 hd.2
      unfold Date.isWorkingDay
      simp only [decide_eq_true_eq]
      omega
    rw [hnil]
    simp

/-- C4 witness: the weekend 2023-11-11 (Saturday) … 2023-11-12 (Sunday)
has zero working days. -/
theorem c4_day_unit_witness :
    Period.num_units (Period.mk (Date.ymd 2023 11 11) (Date.ymd 2023 11 12))
      Unit.Day = 0 :=
  (c4_day_unit (Period.mk (Date.ymd 2023 11 11) (Date.ymd 2023 11 12))
      (by decide)).2 (by
    intro d h1 h2
    rw [Date.le_def] at h1 h2
    have hA : (Period.mk (Date.ymd 2023 11 11)
        (Date.ymd 2023 11 12)).from'.days = 19672 := by decide
    have hB : (Period.mk (Date.ymd 2023 11 11)
        (Date.ymd 2023 11 12)).until'.days = 19673 := by decide
    rw [hA] at h1
    rw [hB] at h2
    unfold Date.weekdayNum
    omega)

theorem rndHalfEven_close (x : ℚ) : |x - (rndHalfEven x : ℚ)| ≤ 1 / 2 := by
  have h1 : ((⌊x⌋ : ℤ) : ℚ) ≤ x := Int.floor_le x
  have h2 : x < (⌊x⌋ : ℚ) + 1 := Int.lt_floor_add_one x
  unfold rndHalfEven
  split_ifs with hlt hgt
  · rw [abs_le]
    constructor <;> linarith
  · push_cast
    rw [abs_le]
    constructor <;> linarith
  · have heq : x - (⌊x⌋ : ℚ) = 1 / 2 := by linarith
    rw [abs_le]
    constructor <;> linarith
  · have heq : x - (⌊x⌋ : ℚ) = 1 / 2 := by linarith
    push_cast
    rw [abs_le]
    constructor <;> linarith

theorem rndHalfEven_tie_even (x : ℚ)
    (h : |x - (rndHalfEven x : ℚ)| = 1 / 2) : Even (rndHalfEven x) := by
  have h1 : ((⌊x⌋ : ℤ) : ℚ) ≤ x := Int.floor_le x
  have h2 : x < (⌊x⌋ : ℚ) + 1 := Int.lt_floor_add_one x
  unfold rndHalfEven at h ⊢
  split_ifs at h ⊢ with hlt hgt hev
  · exfalso
    rw [abs_of_nonneg (by linarith)] at h
    linarith
  · exfalso
    have hx1 : x - ((⌊x⌋ : ℚ) + 1) < 0 := by linarith
    push_cast at h
    rw [abs_of_neg (by linarith)] at h
    linarith
  · exact hev
  · exact Int.even_add_one.mpr hev

/-- C8: multiplying `Money` by a `Decimal` scalar keeps the currency and
rounds the exact product to 2 decimal places: the resulting amount is
`n / 100` for the integer `n` nearest to `amount × scalar × 100`, with
ties going to the even integer; in particular
Money(USD, 1000) × 0.05 = Money(USD, 50) exactly. -/
theorem c8_money_mul (m : Money) (q : ℚ) :
    (m.mul q).currency = m.currency
  ∧ (m.mul q).amount = ((rndHalfEven (m.amount * q * 100) : ℤ) : ℚ) / 100
  ∧ |m.amount * q * 100 - (rndHalfEven (m.amount * q * 100) : ℚ)| ≤ 1 / 2
  ∧ (|m.amount * q * 100 - (rndHalfEven (m.amount * q * 100) : ℚ)| = 1 / 2 →
      Even (rndHalfEven (m.amount * q * 100)))
  ∧ Money.mul ⟨Currency.Usd, 1000⟩ (5 / 100) = ⟨Currency.Usd, 50⟩ := by
  refine ⟨rfl, rfl, rndHalfEven_close _, rndHalfEven_tie_even _, ?_⟩
  show (⟨Currency.Usd, round2 (1000 * (5 / 100))⟩ : Money) = _
  have h : round2 ((1000 : ℚ) * (5 / 100)) = 50 := by
    unfold round2 rndHalfEven
    norm_num
  rw [h]

/-- C8 witness: a concrete midpoint case, 0.125 × 1: 12.5 cents rounds
to the even 12 cents. -/
theorem c8_money_mul_witness :
    Even (rndHalfEven ((Money.mk Currency.Usd (1 / 8)).amount * 1 * 100)) :=
  (c8_money_mul (Money.mk Currency.Usd (1 / 8)) 1).2.2.2.1 (by
    show |(1 / 8 : ℚ) * 1 * 100 - (rndHalfEven ((1 / 8 : ℚ) * 1 * 100) : ℚ)|
        = 1 / 2
    unfold rndHalfEven
    norm_num [Int.even_iff])

theorem foldl_addSnd (l : List (TaxRate × Money)) (a : Money) :
    l.foldl (fun acc p => acc.add p.2) a = (l.map Prod.snd).foldl Money.add a := by
  rw [List.foldl_map]

theorem foldl_add_currency (l : List Money) (a : Money) :
    (l.foldl Money.add a).currency = a.currency := by
  induction l generalizing a with
  | nil => rfl
  | cons x t ih => rw [List.foldl_cons, ih]; rfl

theorem foldl_add_amount (l : List Money) (a : Money) :
    (l.foldl Money.add a).amount = a.amount + (l.map Money.amount).sum := by
  induction l generalizing a with
  | nil => simp
  | cons x t ih =>
    rw [List.foldl_cons, ih]
    simp [Money.add]
    ring

/-- C7: `calculate` fails exactly on an invoice with no items; otherwise
it returns a total whose subtotal amount is the sum of the item amounts,
whose tax list has one entry per configured tax rate valued at
subtotal × rate rounded to 2 decimal places half-to-even, and whose
total amount is the subtotal amount plus the sum of the tax amounts. -/
theorem c7_calculate (inv : Invoice) :
    (inv.calculate = none ↔ inv.items = [])
  ∧ ∀ t, inv.calculate = some t →
      t.subtotal.amount = (inv.items.map (fun it => it.amount.amount)).sum
    ∧ t.taxes = inv.tax_rates.map
        (fun tr => (tr, Money.mk t.subtotal.currency
          (round2 (t.subtotal.amount * tr.rate))))
    ∧ t.total.currency = t.subtotal.currency
    ∧ t.total.amount = t.subtotal.amount
        + (t.taxes.map (fun p => p.2.amount)).sum := by
  cases hi : inv.items with
  | nil =>
    constructor
    · unfold Invoice.calculate
      rw [hi]
      simp
    · intro t ht
      unfold Invoice.calculate at ht
      rw [hi] at ht
      simp at ht
  | cons x rest =>
    constructor
    · unfold Invoice.calculate
      rw [hi]
      simp
    · intro t ht
      unfold Invoice.calculate at ht
      rw [hi] at ht
      simp only [List.map_cons, Option.some.injEq] at ht
      subst ht
      refine ⟨?_, ?_, ?_, ?_⟩
      · dsimp only
        rw [foldl_add_amount]
        simp [List.map_map, Function.comp_def]
      · rfl
      · dsimp only
        rw [foldl_addSnd, foldl_add_currency]
      · dsimp only
        rw [foldl_addSnd, foldl_add_amount, List.map_map]
        simp [List.map_map, Function.comp_def]

/-- C7 witness: one 1000 USD item with a single 5% tax gives subtotal
1000, tax 50, total 1050. -/
theorem c7_calculate_witness :
    (Invoice.mk (Date.ymd 2021 4 15) 1
        [InvoiceItem.mk "consulting"
          (Rate.mk (Money.mk Currency.Usd 1000) Unit.Month)
          (Period.mk (Date.ymd 2021 4 1) (Date.ymd 2021 4 30)) 1
          (Money.mk Currency.Usd 1000)]
        [TaxRate.mk "GST" (5 / 100)] none).calculate
      = some (InvoiceTotal.mk (Money.mk Currency.Usd 1000)
          [(TaxRate.mk "GST" (5 / 100), Money.mk Currency.Usd 50)]
          (Money.mk Currency.Usd 1050))
  ∧ (InvoiceTotal.mk (Money.mk Currency.Usd 1000)
        [(TaxRate.mk "GST" (5 / 100), Money.mk Currency.Usd 50)]
        (Money.mk Currency.Usd 1050)).total.amount = 1050 := by
  have hm : Money.mul (Money.mk Currency.Usd 1000) (5 / 100)
      = Money.mk Currency.Usd 50 := by
    show Money.mk Currency.Usd (round2 (1000 * (5 / 100)))
        = Money.mk Currency.Usd 50
    have h : round2 ((1000 : ℚ) * (5 / 100)) = 50 := by
      unfold round2 rndHalfEven
      norm_num
    rw [h]
  have hc : (Invoice.mk (Date.ymd 2021 4 15) 1
      [InvoiceItem.mk "consulting"
        (Rate.mk (Money.mk Currency.Usd 1000) Unit.Month)
        (Period.mk (Date.ymd 2021 4 1) (Date.ymd 2021 4 30)) 1
        (Money.mk Currency.Usd 1000)]
      [TaxRate.mk "GST" (5 / 100)] none).calculate
      = some (InvoiceTotal.mk (Money.mk Currency.Usd 1000)
          [(TaxRate.mk "GST" (5 / 100), Money.mk Currency.Usd 50)]
          (Money.mk Currency.Usd 1050)) := by
    unfold Invoice.calculate
    dsimp only [List.map_cons, List.map_nil]
    rw [show ([] : List Money).foldl Money.add (Money.mk Currency.Usd 1000)
        = Money.mk Currency.Usd 1000 from rfl]
    rw [hm]
    show some (InvoiceTotal.mk (Money.mk Currency.Usd 1000) _
        ((Money.mk Currency.Usd 1000).add (Money.mk Currency.Usd 50))) = _
    unfold Money.add
    norm_num
  have hsum := ((c7_calculate _).2 _ hc).2.2.2
  refine ⟨hc, ?_⟩
  rw [hsum]
  simp only [List.map_cons, List.map_nil, List.sum_cons, List.sum_nil]
  norm_num

theorem mem_of_getLast?_eq {β : Type} (l : List β) (y : β)
    (hy : l.getLast? = some y) : y ∈ l := by
  rcases List.mem_getLast?_eq_getLast (show y ∈ l.getLast? from hy) with
    ⟨hne, rfl⟩
  exact List.getLast_mem hne

theorem getLast?_max {κ α : Type} [LinearOrder κ] :
    ∀ (l : List (κ × α)), MapWf l → ∀ y, l.getLast? = some y →
      ∀ x ∈ l, x.1 ≤ y.1
  | [], _, y, hy => by simp at hy
  | [a], _, y, hy => by
    rw [List.getLast?_singleton] at hy
    cases hy
    intro x hx
    rcases List.mem_singleton.mp hx with rfl
    exact le_rfl
  | a :: b :: t, hw, y, hy => by
    rw [List.getLast?_cons_cons] at hy
    intro x hx
    rcases List.mem_cons.mp hx with rfl | hx'
    · have hymem : y ∈ b :: t := mem_of_getLast?_eq _ y hy
      exact le_of_lt (List.rel_of_pairwise_cons hw hymem)
    · exact getLast?_max (b :: t) (List.Pairwise.of_cons hw) y hy x hx'

theorem mapAsOf_eq_none_iff {κ α : Type} [LinearOrder κ]
    (l : List (κ × α)) (d : κ) :
    mapAsOf d l = none ↔ ∀ p ∈ l, ¬ p.1 ≤ d := by
  unfold mapAsOf
  rw [Option.map_eq_none', List.getLast?_eq_none_iff, List.filter_eq_nil_iff]
  simp

theorem mapAsOf_eq_some {κ α : Type} [LinearOrder κ] (l : List (κ × α))
    (hw : MapWf l) (d : κ) (v : α) (h : mapAsOf d l = some v) :
    ∃ k, (k, v) ∈ l ∧ k ≤ d ∧ ∀ p ∈ l, p.1 ≤ d → p.1 ≤ k := by
  unfold mapAsOf at h
  rcases Option.map_eq_some'.mp h with ⟨y, hy, hv⟩
  have hymem := mem_of_getLast?_eq _ y hy
  have hyl : y ∈ l := (List.mem_filter.mp hymem).1
  have hyd : y.1 ≤ d := by
    have := (List.mem_filter.mp hymem).2
    simpa using this
  refine ⟨y.1, ?_, hyd, ?_⟩
  · rw [← hv]
    exact hyl
  · intro p hp hpd
    have hpf : p ∈ l.filter (fun p => decide (p.1 ≤ d)) := by
      rw [List.mem_filter]
      exact ⟨hp, by simpa using hpd⟩
    have hwf : MapWf (l.filter (fun p => decide (p.1 ≤ d))) :=
      List.Pairwise.sublist (List.filter_sublist l) hw
    exact getLast?_max _ hwf y hy p hpf

theorem mem_mapInsert {κ α : Type} [LinearOrder κ] (k : κ) (v : α) :
    ∀ (l : List (κ × α)) (x : κ × α), x ∈ mapInsert k v l → x = (k, v) ∨ x ∈ l
  | [], x => by
    intro hx
    unfold mapInsert at hx
    rcases List.mem_singleton.mp hx with rfl
    exact Or.inl rfl
  | (k', v') :: t, x => by
    intro hx
    unfold mapInsert at hx
    split_ifs at hx with h1 h2
    · rcases List.mem_cons.mp hx with rfl | hx'
      · exact Or.inl rfl
      · exact Or.inr hx'
    · rcases List.mem_cons.mp hx with rfl | hx'
      · exact Or.inl rfl
      · exact Or.inr (List.mem_cons_of_mem _ hx')
    · rcases List.mem_cons.mp hx with rfl | hx'
      · exact Or.inr (List.mem_cons_self _ _)
      · rcases mem_mapInsert k v t x hx' with h | h
        · exact Or.inl h
        · exact Or.inr (List.mem_cons_of_mem _ h)

theorem mapWf_insert {κ α : Type} [LinearOrder κ] (k : κ) (v : α) :
    ∀ (l : List (κ × α)), MapWf l → MapWf (mapInsert k v l)
  | [], _ => by
    unfold mapInsert MapWf
    exact List.pairwise_singleton _ _
  | (k', v') :: t, hw => by
    unfold mapInsert
    split_ifs with h1 h2
    · refine List.Pairwise.cons ?_ hw
      intro x hx
      rcases List.mem_cons.mp hx with rfl | hx'
      · exact h1
      · exact lt_trans h1 (List.rel_of_pairwise_cons hw hx')
    · refine List.Pairwise.cons (fun x hx => ?_) (List.Pairwise.of_cons hw)
      rw [h2]
      exact List.rel_of_pairwise_cons hw hx
    · have hk : k' < k := by
        rcases lt_trichotomy k k' with h | h | h
        · exact absurd h h1
        · exact absurd h h2
        · exact h
      refine List.Pairwise.cons ?_
        (mapWf_insert k v t (List.Pairwise.of_cons hw))
      intro x hx
      rcases mem_mapInsert k v t x hx with rfl | hx'
      · exact hk
      · exact List.rel_of_pairwise_cons hw hx'

theorem mapAsOf_single {κ α : Type} [LinearOrder κ] (k d : κ) (v : α) :
    mapAsOf d [(k, v)] = if k ≤ d then some v else none := by
  unfold mapAsOf
  rw [List.filter_cons, List.filter_nil]
  by_cases h : k ≤ d
  · rw [if_pos (decide_eq_true h), if_pos h]
    simp [List.getLast?_singleton]
  · rw [if_neg (by simpa using h), if_neg h]
    rfl

theorem mapAsOf_pair {κ α : Type} [LinearOrder κ] (k1 k2 d : κ) (v1 v2 : α)
    (h12 : k1 ≤ k2) :
    mapAsOf d [(k1, v1), (k2, v2)]
      = if k2 ≤ d then some v2 else if k1 ≤ d then some v1 else none := by
  unfold mapAsOf
  rw [List.filter_cons, List.filter_cons, List.filter_nil]
  by_cases h2 : k2 ≤ d
  · have h1 : k1 ≤ d := le_trans h12 h2
    rw [if_pos (decide_eq_true h1), if_pos (decide_eq_true h2), if_pos h2]
    rw [List.getLast?_cons_cons, List.getLast?_singleton]
    rfl
  · by_cases h1 : k1 ≤ d
    · rw [if_pos (decide_eq_true h1), if_neg (by simpa using h2), if_neg h2,
        if_pos h1]
      simp [List.getLast?_singleton]
    · rw [if_neg (by simpa using h1), if_neg (by simpa using h2), if_neg h2,
        if_neg h1]
      rfl

/-- C1: `as_of` on a well-formed Historical store returns `none` exactly
when no entry is at or before the query date, and otherwise the value
whose effective date is the greatest one ≤ the query date; after
inserting at D1 then at D2 with D1 ≤ D2 and distinct values into an
empty store, `as_of d` is the D1 value for D1 ≤ d < D2 and the D2 value
for d ≥ D2 (an insert at the same date overwrites); the empty store is
well formed and `insert` preserves well-formedness. -/
theorem c1_historical {α : Type} (h : Historical α) (hw : h.Wf) (d : Date) :
    (h.as_of d = none ↔ ∀ k ∈ h.keys, ¬ k ≤ d)
  ∧ (∀ v, h.as_of d = some v → ∃ k, (k, v) ∈ h.history ∧ k ≤ d
      ∧ ∀ k' ∈ h.keys, k' ≤ d → k' ≤ k)
  ∧ (∀ (d1 d2 : Date) (v1 v2 : α), d1 ≤ d2 → v1 ≠ v2 →
      (∀ e, d1 ≤ e → e < d2 →
        ((Historical.new.insert d1 v1).insert d2 v2).as_of e = some v1)
    ∧ (∀ e, d2 ≤ e →
        ((Historical.new.insert d1 v1).insert d2 v2).as_of e = some v2))
  ∧ (Historical.new : Historical α).Wf
  ∧ (∀ (eff : Date) (x : α), (h.insert eff x).Wf) := by
  refine ⟨?_, ?_, ?_, List.Pairwise.nil, fun eff x => ?_⟩
  · rw [show h.as_of d = mapAsOf d h.history from rfl,
      mapAsOf_eq_none_iff h.history d]
    constructor
    · intro hall k hk
      rcases List.mem_map.mp hk with ⟨p, hp, rfl⟩
      exact hall p hp
    · intro hall p hp
      exact hall p.1 (List.mem_map_of_mem Prod.fst hp)
  · intro v hv
    rcases mapAsOf_eq_some h.history hw d v hv with ⟨k, hk, hkd, hmax⟩
    refine ⟨k, hk, hkd, ?_⟩
    intro k' hk' hk'd
    rcases List.mem_map.mp hk' with ⟨p, hp, rfl⟩
    exact hmax p hp hk'd
  · intro d1 d2 v1 v2 hle _hne
    have hbase : mapInsert d1 v1 ([] : List (Date × α)) = [(d1, v1)] := rfl
    rcases eq_or_lt_of_le hle with rfl | hlt
    · constructor
      · intro e h1 h2
        exact absurd h2 (not_lt.mpr h1)
      · intro e he
        show mapAsOf e (mapInsert d1 v2 (mapInsert d1 v1 [])) = some v2
        rw [hbase]
        have hs : mapInsert d1 v2 [(d1, v1)] = [(d1, v2)] := by
          unfold mapInsert
          rw [if_neg (lt_irrefl d1), if_pos rfl]
        rw [hs, mapAsOf_single, if_pos he]
    · have hs : mapInsert d2 v2 [(d1, v1)] = [(d1, v1), (d2, v2)] := by
        unfold mapInsert
        rw [if_neg (not_lt.mpr hlt.le), if_neg hlt.ne']
        rfl
      constructor
      · intro e h1 h2
        show mapAsOf e (mapInsert d2 v2 (mapInsert d1 v1 [])) = some v1
        rw [hbase, hs, mapAsOf_pair d1 d2 e v1 v2 hlt.le,
          if_neg (not_le.mpr h2), if_pos h1]
      · intro e he
        show mapAsOf e (mapInsert d2 v2 (mapInsert d1 v1 [])) = some v2
        rw [hbase, hs, mapAsOf_pair d1 d2 e v1 v2 hlt.le, if_pos he]
  · exact mapWf_insert eff x h.history hw

/-- C1 witness: inserting 1 at 2021-04-01 and 2 at 2021-06-01 into an
empty store, `as_of 2021-04-15` returns the first value. -/
theorem c1_historical_witness :
    ((Historical.new.insert (Date.ymd 2021 4 1) (1 : Nat)).insert
        (Date.ymd 2021 6 1) 2).as_of (Date.ymd 2021 4 15) = some 1 :=
  (((c1_historical (Historical.new : Historical Nat) List.Pairwise.nil
      (Date.ymd 2021 4 15)).2.2.1 (Date.ymd 2021 4 1) (Date.ymd 2021 6 1) 1 2
      (by decide) (by decide)).1 (Date.ymd 2021 4 15) (by decide) (by decide))

theorem keys_range_insert {α : Type} (v : α) :
    ∀ (l : List (Nat × α)) (a : Nat),
      l.map Prod.fst = List.range' a l.length →
      mapInsert (a + l.length) v l = l ++ [(a + l.length, v)]
  | [], a, _ => rfl
  | (k, w) :: t, a, hkeys => by
    rw [List.map_cons, List.length_cons, List.range'_succ] at hkeys
    injection hkeys with hk ht
    subst hk
    show mapInsert (k + (t.length + 1)) v ((k, w) :: t)
        = (k, w) :: t ++ [(k + (t.length + 1), v)]
    unfold mapInsert
    rw [if_neg (by omega : ¬ k + (t.length + 1) < k),
      if_neg (by omega : ¬ k + (t.length + 1) = k)]
    have hstep : k + (t.length + 1) = (k + 1) + t.length := by omega
    rw [hstep, keys_range_insert v t (k + 1) ht]
    rfl

theorem mapLookup_append_self {κ α : Type} [DecidableEq κ] (k : κ) (v : α) :
    ∀ (l : List (κ × α)), (∀ p ∈ l, p.1 ≠ k) →
      mapLookup k (l ++ [(k, v)]) = some v
  | [], _ => by
    rw [List.nil_append]
    unfold mapLookup
    rw [if_pos rfl]
  | (k', v') :: t, h => by
    show mapLookup k ((k', v') :: (t ++ [(k, v)])) = some v
    unfold mapLookup
    rw [if_neg (fun he => h (k', v') (List.mem_cons_self _ _) he.symm)]
    exact mapLookup_append_self k v t
      (fun p hp => h p (List.mem_cons_of_mem _ hp))

theorem mapLookup_mapModify {κ α : Type} [DecidableEq κ] (k : κ) (f : α → α) :
    ∀ (l : List (κ × α)),
      mapLookup k (mapModify k f l) = (mapLookup k l).map f
  | [] => rfl
  | (k', v') :: t => by
    unfold mapModify
    rw [List.map_cons]
    dsimp only
    by_cases h : k' = k
    · rw [if_pos h]
      unfold mapLookup
      rw [if_pos h.symm, if_pos h.symm]
      rfl
    · rw [if_neg h]
      unfold mapLookup
      rw [if_neg (fun he => h he.symm), if_neg (fun he => h he.symm)]
      exact mapLookup_mapModify k f t

theorem mapModify_keys {κ α : Type} [DecidableEq κ] (k : κ) (f : α → α)
    (l : List (κ × α)) :
    (mapModify k f l).map Prod.fst = l.map Prod.fst := by
  unfold mapModify
  rw [List.map_map]
  apply List.map_congr_left
  intro p _
  show (if p.1 = k then (p.1, f p.2) else p).1 = p.1
  split_ifs with h
  · rfl
  · rfl

theorem mapModify_length {κ α : Type} [DecidableEq κ] (k : κ) (f : α → α)
    (l : List (κ × α)) : (mapModify k f l).length = l.length :=
  List.length_map l _

theorem clientWf_new (key name address : String) :
    ClientWf (Client.new key name address) := by
  constructor
  · rfl
  · intro p hp
    cases hp

theorem update_preserves_wf (c : Client) (u : Update) (hw : ClientWf c) :
    ClientWf (c.update u).1 := by
  cases u with
  | Address addr => exact hw
  | Name name => exact hw
  | Rate eff r => exact hw
  | Taxes eff ts => exact hw
  | Invoiced inv =>
    unfold Client.update
    dsimp only
    by_cases h : inv.number = c.next_invoice_num
    · have h1 : inv.number = 1 + c.invoices.length := by
        rw [h]
        unfold Client.next_invoice_num
        omega
      have happ : mapInsert inv.number inv c.invoices
          = c.invoices ++ [(inv.number, inv)] := by
        rw [h1]
        exact keys_range_insert inv c.invoices 1 hw.1
      rw [if_neg (not_not_intro h)]
      constructor
      · dsimp only
        rw [happ, List.map_append, hw.1, h1, List.length_append,
          List.length_singleton]
        rw [show List.map Prod.fst [(1 + c.invoices.length, inv)]
            = [1 + c.invoices.length] from rfl]
        exact (List.range'_1_concat 1 c.invoices.length).symm
      · intro p hp
        dsimp only at hp
        rw [happ] at hp
        rcases List.mem_append.mp hp with hp' | hp'
        · exact hw.2 p hp'
        · rcases List.mem_singleton.mp hp' with rfl
          rfl
    · rw [if_pos h]
      exact hw
  | Paid num when =>
    unfold Client.update
    dsimp only
    rcases hlook : mapLookup num c.invoices with _ | inv0
    · exact hw
    · dsimp only
      split_ifs with hpaid
      · exact hw
      · constructor
        · dsimp only
          rw [mapModify_keys, mapModify_length]
          exact hw.1
        · intro p hp
          dsimp only at hp
          rcases List.mem_map.mp hp with ⟨q, hq, rfl⟩
          dsimp only
          split_ifs with hq1
          · exact hw.2 q hq
          · exact hw.2 q hq

theorem update_err_unchanged (c : Client) (u : Update)
    (h : (c.update u).2.isSome) : (c.update u).1 = c := by
  cases u with
  | Address addr => simp [Client.update] at h
  | Name name => simp [Client.update] at h
  | Rate eff r => simp [Client.update] at h
  | Taxes eff ts => simp [Client.update] at h
  | Invoiced inv =>
    unfold Client.update at h ⊢
    dsimp only at h ⊢
    split_ifs at h ⊢
    · rfl
    · simp at h
  | Paid num when =>
    unfold Client.update at h ⊢
    dsimp only at h ⊢
    rcases hlook : mapLookup num c.invoices with _ | inv0
    · rfl
    · rw [hlook] at h
      dsimp only at h ⊢
      split_ifs at h ⊢
      · rfl
      · exact Bool.noConfusion h

theorem apply_event_preserves (cs : Clients)
    (hcs : ∀ k c, cs k = some c → ClientWf c) (e : Event) :
    ∀ k c, apply_event cs e k = some c → ClientWf c := by
  obtain ⟨key, ts, ch⟩ := e
  intro k c hk
  unfold apply_event at hk
  cases ch with
  | Added name address =>
    dsimp only at hk
    unfold clientsInsert at hk
    split_ifs at hk
    · cases hk
      exact clientWf_new key name address
    · exact hcs k c hk
  | Updated u =>
    dsimp only at hk
    rcases hck : cs key with _ | c0
    · rw [hck] at hk
      exact hcs k c hk
    · rw [hck] at hk
      dsimp only at hk
      unfold clientsInsert at hk
      split_ifs at hk
      · cases hk
        exact update_preserves_wf c0 u (hcs key c0 hck)
      · exact hcs k c hk
  | Removed =>
    dsimp only at hk
    unfold clientsRemove at hk
    by_cases hke : k = key
    · rw [if_pos hke] at hk
      exact Option.noConfusion hk
    · rw [if_neg hke] at hk
      exact hcs k c hk

theorem foldl_preserves :
    ∀ (events : List Event) (cs : Clients),
      (∀ k c, cs k = some c → ClientWf c) →
      ∀ k c, (events.foldl apply_event cs) k = some c → ClientWf c
  | [], _, hcs => hcs
  | e :: t, cs, hcs => by
    rw [List.foldl_cons]
    exact foldl_preserves t (apply_event cs e) (apply_event_preserves cs hcs e)

/-- C9: every client in a registry obtained by replaying any event list
with `from_events` has invoice keys exactly 1, 2, ..., n (n the number
of stored invoices) with each stored invoice's `number` equal to its
key; and a single `apply_event` step preserves that invariant. -/
theorem c9_invariant :
    (∀ (events : List Event) (cs : Clients) (k : String) (c : Client),
        from_events events = Except.ok cs → cs k = some c → ClientWf c)
  ∧ (∀ (cs : Clients), (∀ k c, cs k = some c → ClientWf c) →
      ∀ (e : Event) (k : String) (c : Client),
        apply_event cs e k = some c → ClientWf c) := by
  constructor
  · intro events cs k c hok hk
    have hcs : cs = events.foldl apply_event (fun _ => none) := by
      unfold from_events at hok
      injection hok with h
      exact h.symm
    subst hcs
    exact foldl_preserves events _ (fun k' c' h' => by cases h') k c hk
  · intro cs hcs e k c hk
    exact apply_event_preserves cs hcs e k c hk

/-- C9 witness: replaying a single `Added` event produces a registry
whose only client satisfies the invariant. -/
theorem c9_invariant_witness : ClientWf (Client.new "acme" "Acme" "1 Main St") :=
  c9_invariant.1 [Event.mk "acme" 0 (Change.Added "Acme" "1 Main St")]
    (List.foldl apply_event (fun _ => none)
      [Event.mk "acme" 0 (Change.Added "Acme" "1 Main St")])
    "acme" (Client.new "acme" "Acme" "1 Main St") rfl (by decide)

/-- C10: `from_events` always returns `Ok` (the fold surfaces no error);
an `Updated` event whose key is absent leaves the registry unchanged;
and an `Updated` event whose inner `Client::update` fails leaves the
registry (in particular that client) unchanged, because `apply_event`
discards the `Result`. -/
theorem c10_replay :
    (∀ events : List Event, ∃ cs, from_events events = Except.ok cs)
  ∧ (∀ (cs : Clients) (key : String) (ts : Int) (u : Update),
      cs key = none →
      apply_event cs (Event.mk key ts (Change.Updated u)) = cs)
  ∧ (∀ (cs : Clients) (key : String) (ts : Int) (u : Update) (c : Client),
      cs key = some c → (c.update u).2.isSome →
      apply_event cs (Event.mk key ts (Change.Updated u)) = cs) := by
  refine ⟨fun events => ⟨_, rfl⟩, ?_, ?_⟩
  · intro cs key ts u h
    unfold apply_event
    dsimp only
    rw [h]
  · intro cs key ts u c h herr
    unfold apply_event
    dsimp only
    rw [h]
    show clientsInsert cs key (c.update u).1 = cs
    rw [update_err_unchanged c u herr]
    funext k'
    unfold clientsInsert
    split_ifs with hk
    · rw [hk, h]
    · rfl

/-- C10 witness: an update event for an unknown key is silently dropped. -/
theorem c10_replay_witness :
    apply_event (fun _ => none)
      (Event.mk "ghost" 0 (Change.Updated (Update.Name "New Name")))
      = (fun _ => none) :=
  c10_replay.2.1 (fun _ => none) "ghost" 0 (Update.Name "New Name") rfl

/-- C5: applying `Invoiced(invoice)` to a well-formed client fails (with
the out-of-sequence error carrying the current count and the offending
number) exactly when `invoice.number ≠ next_invoice_num()`, where
`next_invoice_num()` is the stored-invoice count plus 1; with the
correct number it succeeds, stores the invoice under its number, and
`next_invoice_num()` grows by exactly 1. -/
theorem c5_invoiced (c : Client) (inv : ClientInvoice) (hw : ClientWf c) :
    ((c.update (Update.Invoiced inv)).2 ≠ none
      ↔ inv.number ≠ c.next_invoice_num)
  ∧ c.next_invoice_num = c.invoices.length + 1
  ∧ (inv.number ≠ c.next_invoice_num →
      c.update (Update.Invoiced inv)
        = (c, some (ClientError.InvoiceOutOfSequence c.invoices.length
            inv.number)))
  ∧ (inv.number = c.next_invoice_num →
      (c.update (Update.Invoiced inv)).2 = none
    ∧ mapLookup inv.number (c.update (Update.Invoiced inv)).1.invoices
        = some inv
    ∧ (c.update (Update.Invoiced inv)).1.next_invoice_num
        = c.next_invoice_num + 1) := by
  by_cases h : inv.number = c.next_invoice_num
  · have h1 : inv.number = 1 + c.invoices.length := by
      rw [h]
      unfold Client.next_invoice_num
      omega
    have happ : mapInsert inv.number inv c.invoices
        = c.invoices ++ [(inv.number, inv)] := by
      rw [h1]
      exact keys_range_insert inv c.invoices 1 hw.1
    have hupd : c.update (Update.Invoiced inv)
        = ({ c with
              invoices := mapInsert inv.number inv c.invoices,
              past_services := setInsert inv.service c.past_services },
           none) := by
      unfold Client.update
      dsimp only
      rw [if_neg (not_not_intro h)]
    refine ⟨?_, rfl, fun hne => absurd h hne, fun _ => ⟨?_, ?_, ?_⟩⟩
    · rw [hupd]
      exact iff_of_false (fun hne => hne rfl) (not_not_intro h)
    · rw [hupd]
    · rw [hupd]
      dsimp only
      rw [happ]
      refine mapLookup_append_self inv.number inv c.invoices ?_
      intro p hp hpk
      have hmem : p.1 ∈ c.invoices.map Prod.fst := List.mem_map_of_mem Prod.fst hp
      rw [hw.1, List.mem_range'_1] at hmem
      omega
    · rw [hupd]
      dsimp only
      show (mapInsert inv.number inv c.invoices).length + 1 = _
      rw [happ, List.length_append]
      rfl
  · have hupd : c.update (Update.Invoiced inv)
        = (c, some (ClientError.InvoiceOutOfSequence c.invoices.length
            inv.number)) := by
      unfold Client.update
      dsimp only
      rw [if_pos h]
    refine ⟨?_, rfl, fun _ => hupd, fun he => absurd he h⟩
    rw [hupd]
    exact iff_of_true (fun heq => Option.noConfusion heq) h

/-- C5 witness: invoicing a fresh client with number 1 succeeds, stores
the invoice, and bumps the next number to 2. -/
theorem c5_invoiced_witness :
    ((Client.new "acme" "Acme" "1 Main St").update (Update.Invoiced
        (ClientInvoice.mk (Date.ymd 2021 4 15) 1
          (Period.mk (Date.ymd 2021 4 1) (Date.ymd 2021 4 30)) "consulting"
          (Rate.mk (Money.mk Currency.Usd 1000) Unit.Month) [] none))).2 = none
  ∧ mapLookup 1 ((Client.new "acme" "Acme" "1 Main St").update
      (Update.Invoiced (ClientInvoice.mk (Date.ymd 2021 4 15) 1
          (Period.mk (Date.ymd 2021 4 1) (Date.ymd 2021 4 30)) "consulting"
          (Rate.mk (Money.mk Currency.Usd 1000) Unit.Month) []
          none))).1.invoices
      = some (ClientInvoice.mk (Date.ymd 2021 4 15) 1
          (Period.mk (Date.ymd 2021 4 1) (Date.ymd 2021 4 30)) "consulting"
          (Rate.mk (Money.mk Currency.Usd 1000) Unit.Month) [] none)
  ∧ ((Client.new "acme" "Acme" "1 Main St").update
      (Update.Invoiced (ClientInvoice.mk (Date.ymd 2021 4 15) 1
          (Period.mk (Date.ymd 2021 4 1) (Date.ymd 2021 4 30)) "consulting"
          (Rate.mk (Money.mk Currency.Usd 1000) Unit.Month) []
          none))).1.next_invoice_num
      = (Client.new "acme" "Acme" "1 Main St").next_invoice_num + 1 :=
  (c5_invoiced (Client.new "acme" "Acme" "1 Main St")
    (ClientInvoice.mk (Date.ymd 2021 4 15) 1
      (Period.mk (Date.ymd 2021 4 1) (Date.ymd 2021 4 30)) "consulting"
      (Rate.mk (Money.mk Currency.Usd 1000) Unit.Month) [] none)
    (clientWf_new "acme" "Acme" "1 Main St")).2.2.2 (by decide)

/-- C6: applying `Paid(num, date)` fails exactly when the invoice number
is absent (not-found error) or the invoice is already paid
(already-paid error), leaving the client unchanged in both cases; on an
unpaid existing invoice it succeeds and the invoice is subsequently
seen with `paid = Some(date)`. -/
theorem c6_paid (c : Client) (num : Nat) (when : Date) :
    ((c.update (Update.Paid num when)).2 ≠ none
      ↔ mapLookup num c.invoices = none
        ∨ ∃ inv, mapLookup num c.invoices = some inv ∧ inv.paid.isSome)
  ∧ (mapLookup num c.invoices = none →
      c.update (Update.Paid num when)
        = (c, some (ClientError.PaidOutOfSequence c.key num)))
  ∧ (∀ inv, mapLookup num c.invoices = some inv → inv.paid.isSome →
      c.update (Update.Paid num when)
        = (c, some (ClientError.AlreadyPaid c.key num)))
  ∧ (∀ inv, mapLookup num c.invoices = some inv → inv.paid = none →
      (c.update (Update.Paid num when)).2 = none
    ∧ mapLookup num (c.update (Update.Paid num when)).1.invoices
        = some { inv with paid := some when }) := by
  rcases hlook : mapLookup num c.invoices with _ | inv0
  · have hupd : c.update (Update.Paid num when)
        = (c, some (ClientError.PaidOutOfSequence c.key num)) := by
      unfold Client.update
      dsimp only
      rw [hlook]
    refine ⟨?_, fun _ => hupd, ?_, ?_⟩
    · refine iff_of_true ?_ (Or.inl rfl)
      rw [hupd]
      exact fun heq => Option.noConfusion heq
    · intro inv hinv
      exact Option.noConfusion hinv
    · intro inv hinv
      exact Option.noConfusion hinv
  · by_cases hpaid : inv0.paid.isSome
    · have hupd : c.update (Update.Paid num when)
          = (c, some (ClientError.AlreadyPaid c.key num)) := by
        unfold Client.update
        dsimp only
        rw [hlook]
        dsimp only
        rw [if_pos hpaid]
      refine ⟨?_, ?_, fun inv _ _ => hupd, ?_⟩
      · refine iff_of_true ?_ (Or.inr ⟨inv0, rfl, hpaid⟩)
        rw [hupd]
        exact fun heq => Option.noConfusion heq
      · intro hnone
        exact Option.noConfusion hnone
      · intro inv hinv hnone
        injection hinv with he
        subst he
        exfalso
        rw [hnone] at hpaid
        simp at hpaid
    · have hupd : c.update (Update.Paid num when)
          = ({ c with
                invoices := mapModify num
                  (fun i => { i with paid := some when }) c.invoices },
             none) := by
        unfold Client.update
        dsimp only
        rw [hlook]
        dsimp only
        rw [if_neg hpaid]
      refine ⟨?_, ?_, ?_, ?_⟩
      · refine iff_of_false ?_ ?_
        · rw [hupd]
          exact fun hne => hne rfl
        · rintro (hnone | ⟨inv, hinv, hp⟩)
          · exact Option.noConfusion hnone
          · injection hinv with he
            subst he
            exact hpaid hp
      · intro hnone
        exact Option.noConfusion hnone
      · intro inv hinv hp
        injection hinv with he
        subst he
        exact absurd hp hpaid
      · intro inv hinv hnone
        injection hinv with he
        subst he
        refine ⟨by rw [hupd], ?_⟩
        rw [hupd]
        dsimp only
        rw [mapLookup_mapModify, hlook]
        rfl

/-- C6 witness: on a client holding the single unpaid invoice 1, paying
invoice 1 succeeds and the invoice is then seen as paid on that date. -/
theorem c6_paid_witness :
    ((Client.mk "acme" "Acme" "1 Main St" []
        [(1, ClientInvoice.mk (Date.ymd 2021 4 15) 1
          (Period.mk (Date.ymd 2021 4 1) (Date.ymd 2021 4 30)) "consulting"
          (Rate.mk (Money.mk Currency.Usd 1000) Unit.Month) [] none)] []
        []).update (Update.Paid 1 (Date.ymd 2021 5 1))).2 = none
  ∧ mapLookup 1 ((Client.mk "acme" "Acme" "1 Main St" []
        [(1, ClientInvoice.mk (Date.ymd 2021 4 15) 1
          (Period.mk (Date.ymd 2021 4 1) (Date.ymd 2021 4 30)) "consulting"
          (Rate.mk (Money.mk Currency.Usd 1000) Unit.Month) [] none)] []
        []).update (Update.Paid 1 (Date.ymd 2021 5 1))).1.invoices
      = some (ClientInvoice.mk (Date.ymd 2021 4 15) 1
          (Period.mk (Date.ymd 2021 4 1) (Date.ymd 2021 4 30)) "consulting"
          (Rate.mk (Money.mk Currency.Usd 1000) Unit.Month) []
          (some (Date.ymd 2021 5 1))) :=
  (c6_paid (Client.mk "acme" "Acme" "1 Main St" []
      [(1, ClientInvoice.mk (Date.ymd 2021 4 15) 1
        (Period.mk (Date.ymd 2021 4 1) (Date.ymd 2021 4 30)) "consulting"
        (Rate.mk (Money.mk Currency.Usd 1000) Unit.Month) [] none)] [] [])
    1 (Date.ymd 2021 5 1)).2.2.2
    (ClientInvoice.mk (Date.ymd 2021 4 15) 1
      (Period.mk (Date.ymd 2021 4 1) (Date.ymd 2021 4 30)) "consulting"
      (Rate.mk (Money.mk Currency.Usd 1000) Unit.Month) [] none)
    (by decide) rfl

end Invogen
